import Mathlib

/-!
Verification of the review-parsing and evaluation-store core of the
annotation web app (src/app.py).  Strings are modelled as `List Char`;
Python's dynamically-typed parser input is modelled by `PyValue`; the
CSV store is modelled by explicit state passing (`Option (List RatingRecord)`,
`none` = the results file does not exist).
-/

namespace App

/-- ASCII whitespace as recognised by Python's `str.strip()`
(space, tab, newline, carriage return, vertical tab, form feed). -/
def isPyWhitespace (c : Char) : Bool :=
  c = ' ' || c = '\t' || c = '\n' || c = '\r' || c = '\x0b' || c = '\x0c'

/-- Drop leading Python whitespace, as in `str.lstrip()`. -/
def stripLeft : List Char → List Char
  | [] => []
  | c :: cs => if isPyWhitespace c then stripLeft cs else c :: cs

/-- Drop trailing Python whitespace, as in `str.rstrip()`. -/
def stripRight (l : List Char) : List Char :=
  (stripLeft l.reverse).reverse

/-- Python's `str.strip()`: drop whitespace on both ends. -/
def pyStrip (l : List Char) : List Char :=
  stripRight (stripLeft l)

/-- Index of the first occurrence of `needle` in `haystack`
(`re.search` / `str.find` position), or `none` if it does not occur. -/
def findSub (needle : List Char) : List Char → Option Nat
  | [] => if needle = [] then some 0 else none
  | c :: cs =>
    if needle.isPrefixOf (c :: cs) then some 0
    else
      match findSub needle cs with
      | some n => some (n + 1)
      | none => none

/-- Everything after the first occurrence of `needle`, or `none` if
`needle` does not occur.  Models the part of `re.search` that anchors a
section pattern at the first occurrence of its literal marker. -/
def afterFirst (needle : List Char) (text : List Char) : Option (List Char) :=
  match findSub needle text with
  | none => none
  | some i => (text.drop i).drop needle.length

/-- The prefix of `text` up to (excluding) the first occurrence of
`needle`, or all of `text` if `needle` does not occur.  Models the
non-greedy `(.*?)(?=needle|\Z)` span of the section regexes. -/
def upToFirst (needle : List Char) (text : List Char) : List Char :=
  match findSub needle text with
  | none => text
  | some i => text.take i

/-- The literal section marker regexes search for. -/
def summaryMarker : List Char := "**Summary**".toList

/-- The literal Strengths marker. -/
def strengthsMarker : List Char := "**Strengths**".toList

/-- The literal Weaknesses marker. -/
def weaknessesMarker : List Char := "**Weaknesses**".toList

/-- The literal Questions marker. -/
def questionsMarker : List Char := "**Questions**".toList

/-- The raw (unstripped) span of a section: the text between the first
occurrence of `marker` and the first following occurrence of `nm`
(or the end of the text), `none` when `marker` is absent.  This is
`re.search(marker + non-greedy-body + lookahead(nm or end), text, DOTALL)`. -/
def sectionRaw (marker nm : List Char) (text : List Char) : Option (List Char) :=
  (afterFirst marker text).map (upToFirst nm)

/-- `content.split('\n-')`: split on each occurrence of a newline
immediately followed by a hyphen. -/
def splitNewlineHyphen : List Char → List (List Char)
  | [] => [[]]
  | '\n' :: '-' :: rest => [] :: splitNewlineHyphen rest
  | c :: rest =>
    match splitNewlineHyphen rest with
    | [] => [[c]]
    | p :: ps => (c :: p) :: ps

/-- Clean one candidate bullet point: strip surrounding whitespace and,
if a leading hyphen remains, drop it and strip again
(`point.strip()`, then `cleaned[1:].strip()` when it starts with `-`). -/
def cleanPoint (p : List Char) : List Char :=
  match pyStrip p with
  | '-' :: rest => pyStrip rest
  | s => s

/-- Clean every candidate point and keep the non-empty ones, in order. -/
def cleanPoints (ps : List (List Char)) : List (List Char) :=
  (ps.map cleanPoint).filter (fun p => p ≠ [])

/-- Turn a bullet section's raw span into its list of points:
strip the span, split on newline-hyphen, clean each candidate,
keep non-empty ones. -/
def parsePoints (content : List Char) : List (List Char) :=
  cleanPoints (splitNewlineHyphen (pyStrip content))

/-- The structured result of parsing one review
(`parse_review`'s returned dictionary). -/
structure ParsedReview where
  summary : List (List Char)
  strengths : List (List Char)
  weaknesses : List (List Char)
  questions : List (List Char)
deriving DecidableEq

/-- A Python value handed to `parse_review`: a string, `None`, an
integer, or anything else that is not a string. -/
inductive PyValue where
  | str (s : List Char)
  | pyNone
  | pyInt (n : Int)
  | other
deriving DecidableEq

/-- The placeholder summary returned for non-string input. -/
def notAvailable : List Char := "Not Available".toList

/-- `parse_review` on a string input: locate the four sections by their
literal markers, strip the Summary span into at most one string, and
split the other three spans into bullet points. -/
def parseReviewStr (text : List Char) : ParsedReview :=
  { summary :=
      match sectionRaw summaryMarker strengthsMarker text with
      | some c => if pyStrip c = [] then [] else [pyStrip c]
      | none => []
    strengths :=
      match sectionRaw strengthsMarker weaknessesMarker text with
      | some c => parsePoints c
      | none => []
    weaknesses :=
      match sectionRaw weaknessesMarker questionsMarker text with
      | some c => parsePoints c
      | none => []
    questions :=
      match afterFirst questionsMarker text with
      | some c => parsePoints c
      | none => [] }

/-- `parse_review(review_text)`: non-string input yields the
`Not Available` placeholder record; string input is parsed by sections. -/
def parse_review : PyValue → ParsedReview
  | PyValue.str s => parseReviewStr s
  | _ => { summary := [notAvailable], strengths := [], weaknesses := [], questions := [] }

/-- `needle` occurs in `text` for the first time at index `i`. -/
def markerAt (needle text : List Char) (i : Nat) : Prop :=
  needle <+: text.drop i ∧ ∀ j < i, ¬ needle <+: text.drop j

/-- The empty needle is always found at index 0. -/
theorem findSub_nil (h : List Char) : findSub [] h = some 0 := by
  cases h with
  | nil => simp [findSub]
  | cons c cs => simp [findSub, List.isPrefixOf]

/-- When `findSub` fails, the needle occurs nowhere (for non-empty needles). -/
theorem findSub_none_not_occurs (n : List Char) (hn : n ≠ []) :
    ∀ h : List Char, findSub n h = none → ∀ j, ¬ n <+: h.drop j := by
  intro h
  induction h with
  | nil =>
    intro _ j hpre
    exact hn (List.prefix_nil.mp (by simpa using hpre))
  | cons c cs ih =>
    intro hfs j hpre
    rw [findSub] at hfs
    by_cases hp : n.isPrefixOf (c :: cs)
    · simp [hp] at hfs
    · simp only [hp, if_false] at hfs
      cases e : findSub n cs with
      | some m => rw [e] at hfs; exact Option.noConfusion hfs
      | none =>
        cases j with
        | zero =>
          exact hp (List.isPrefixOf_iff_prefix.mpr (by simpa using hpre))
        | succ k =>
          exact ih e k (by simpa using hpre)

/-- When `findSub` succeeds it reports the first occurrence. -/
theorem findSub_some_markerAt (n : List Char) :
    ∀ (h : List Char) (i : Nat), findSub n h = some i → markerAt n h i := by
  intro h
  induction h with
  | nil =>
    intro i hfs
    rw [findSub] at hfs
    by_cases hn : n = ([] : List Char)
    · simp [hn] at hfs
      exact ⟨by simp [hn, ← hfs], by intro j hj; omega⟩
    · simp [hn] at hfs
  | cons c cs ih =>
    intro i hfs
    rw [findSub] at hfs
    by_cases hp : n.isPrefixOf (c :: cs)
    · simp only [hp, if_true] at hfs
      injection hfs with hi
      subst hi
      exact ⟨List.isPrefixOf_iff_prefix.mp hp, by intro j hj; omega⟩
    · simp only [hp, if_false] at hfs
      cases e : findSub n cs with
      | none => rw [e] at hfs; exact Option.noConfusion hfs
      | some m =>
        rw [e] at hfs
        injection hfs with hi
        subst hi
        obtain ⟨hocc, hmin⟩ := ih m e
        refine ⟨by simpa using hocc, ?_⟩
        intro j hj
        cases j with
        | zero =>
          intro hpre
          exact hp (List.isPrefixOf_iff_prefix.mpr (by simpa using hpre))
        | succ k =>
          intro hpre
          exact hmin k (by omega) (by simpa using hpre)

/-- Conversely, the first occurrence is what `findSub` reports. -/
theorem markerAt_findSub (n h : List Char) (i : Nat) (hi : markerAt n h i) :
    findSub n h = some i := by
  cases e : findSub n h with
  | none =>
    by_cases hn : n = ([] : List Char)
    · rw [hn, findSub_nil] at e; exact Option.noConfusion e
    · exact absurd hi.1 (findSub_none_not_occurs n hn h e i)
  | some k =>
    obtain ⟨hocc, hmin⟩ := findSub_some_markerAt n h k e
    rcases Nat.lt_trichotomy k i with hlt | heq | hgt
    · exact absurd hocc (hi.2 k hlt)
    · rw [heq]
    · exact absurd hi.1 (hmin i hgt)

/-- The specification of a section span: if the opening marker is
absent there is no section; otherwise the span is everything after the
first occurrence of the opening marker, cut at the first following
occurrence of the closing marker when there is one, and running to the
end of the text when there is none. -/
def SpanBetween (m nm text : List Char) : Prop :=
  (findSub m text = none → sectionRaw m nm text = none) ∧
  ∀ i, markerAt m text i →
    ((∃ j, markerAt nm ((text.drop i).drop m.length) j ∧
        sectionRaw m nm text = some (((text.drop i).drop m.length).take j)) ∨
     ((∀ j, ¬ nm <+: ((text.drop i).drop m.length).drop j) ∧
        sectionRaw m nm text = some ((text.drop i).drop m.length)))

/-- Every section span extracted by `sectionRaw` obeys `SpanBetween`. -/
theorem sectionRaw_between (m nm text : List Char) : SpanBetween m nm text := by
  constructor
  · intro hnone
    simp [sectionRaw, afterFirst, hnone]
  · intro i hi
    have hfs : findSub m text = some i := markerAt_findSub m text i hi
    have hafter : afterFirst m text = some ((text.drop i).drop m.length) := by
      simp [afterFirst, hfs]
    have hdd : List.drop m.length (List.drop i text) = List.drop (i + m.length) text := by
      rw [List.drop_drop, Nat.add_comm]
    cases e : findSub nm ((text.drop i).drop m.length) with
    | some j =>
      left
      refine ⟨j, findSub_some_markerAt nm _ j e, ?_⟩
      have e' : findSub nm (List.drop (i + m.length) text) = some j := by rw [← hdd]; exact e
      simp [sectionRaw, hafter, upToFirst, e', hdd]
    | none =>
      right
      have hnm : nm ≠ ([] : List Char) := by
        intro hn
        rw [hn, findSub_nil] at e
        exact Option.noConfusion e
      have e' : findSub nm (List.drop (i + m.length) text) = none := by rw [← hdd]; exact e
      refine ⟨findSub_none_not_occurs nm hnm _ e, ?_⟩
      simp [sectionRaw, hafter, upToFirst, e', hdd]

/-! ### Evaluation store (`save_results` / `get_user_progress`) -/

/-- One persisted evaluation row of the results CSV file. -/
structure RatingRecord where
  timestamp : List Char
  user : List Char
  paper_id : List Char
  review_type : List Char
  reviewer_confidence : Rat
  review_thoroughness : Rat
  constructiveness : Rat
  helpfulness : Rat
deriving DecidableEq

/-- The possible outcomes of reading the results file inside
`get_user_progress`: the `os.path.exists` check fails, `pd.read_csv`
raises `EmptyDataError`, some other exception is raised on a malformed
file, or a list of rows is read successfully. -/
inductive ReadOutcome where
  | noFile
  | emptyData
  | readError
  | ok (rs : List RatingRecord)
deriving DecidableEq

/-- `get_user_progress(results_path, user)`: 0 when the file is missing,
empty or unreadable; otherwise the number of rows whose `user` column
equals the given user. -/
def get_user_progress (outcome : ReadOutcome) (user : List Char) : Nat :=
  match outcome with
  | ReadOutcome.noFile => 0
  | ReadOutcome.emptyData => 0
  | ReadOutcome.readError => 0
  | ReadOutcome.ok rs =>
    if rs = [] then 0 else (rs.filter (fun r => r.user = user)).length

/-- Reading an in-model store: a missing file reads as `noFile`,
an existing one yields its rows. -/
def readStore : Option (List RatingRecord) → ReadOutcome
  | none => ReadOutcome.noFile
  | some rs => ReadOutcome.ok rs

/-- Number of stored records for a user: `get_user_progress` applied to
the read store. -/
def countForUser (store : Option (List RatingRecord)) (user : List Char) : Nat :=
  get_user_progress (readStore store) user

/-! ### Helper lemmas -/

/-- `stripLeft` of an all-whitespace list is empty. -/
theorem stripLeft_eq_nil_of_all_ws :
    ∀ l : List Char, (∀ c ∈ l, isPyWhitespace c = true) → stripLeft l = [] := by
  intro l
  induction l with
  | nil => intro _; rfl
  | cons c cs ih =>
    intro hall
    rw [stripLeft, if_pos (hall c (by simp))]
    exact ih (fun d hd => hall d (by simp [hd]))

/-- `pyStrip` of an all-whitespace list is empty. -/
theorem pyStrip_eq_nil_of_all_ws (l : List Char)
    (hall : ∀ c ∈ l, isPyWhitespace c = true) : pyStrip l = [] := by
  rw [pyStrip, stripLeft_eq_nil_of_all_ws l hall]
  rfl

/-- A whitespace-only section body yields no bullet points. -/
theorem parsePoints_of_strip_nil (c : List Char) (h : pyStrip c = []) :
    parsePoints c = [] := by
  rw [parsePoints, h]
  rfl

/-- Every point surviving `cleanPoints` is non-empty. -/
theorem cleanPoints_ne_nil (ps : List (List Char)) :
    ∀ p ∈ cleanPoints ps, p ≠ [] := by
  intro p hp
  have := List.of_mem_filter hp
  simpa using this

/-- Every surviving point is the cleanup of one of the candidates. -/
theorem cleanPoints_mem (ps : List (List Char)) :
    ∀ p ∈ cleanPoints ps, ∃ q ∈ ps, cleanPoint q = p := by
  intro p hp
  have hmem : p ∈ ps.map cleanPoint := List.mem_of_mem_filter hp
  exact List.mem_map.mp hmem

/-- If the needle occurs nowhere in a text, it occurs nowhere in any
of its tails. -/
theorem findSub_drop_none (n text : List Char) (hn : n ≠ [])
    (h : findSub n text = none) (k : Nat) : findSub n (text.drop k) = none := by
  cases e : findSub n (text.drop k) with
  | none => rfl
  | some j =>
    have hocc := (findSub_some_markerAt n (text.drop k) j e).1
    rw [List.drop_drop] at hocc
    exact absurd hocc (findSub_none_not_occurs n hn text h (k + j))

/-! ### Concrete inputs used in the worked examples -/

/-- The worked example review text from the specification. -/
def exTextC1 : List Char :=
  ("**Summary**\nGood paper.\n**Strengths**\n- clear writing\n- solid experiments\n**Weaknesses**\n- too long\n**Questions**\nWhy not compare to X?").toList

/-- A review with a Strengths marker whose body is only whitespace. -/
def exTextWs : List Char := ("**Strengths**\n  \n").toList

/-- A review with Summary and Weaknesses markers but no Strengths marker. -/
def exTextC10 : List Char := ("**Summary**\nGood.\n**Weaknesses**\n- too long").toList

/-- Claim C1: on the worked example input, `parse_review` returns
summary `["Good paper."]`, strengths `["clear writing", "solid
experiments"]`, weaknesses `["too long"]` and questions
`["Why not compare to X?"]`. -/
theorem parse_review_worked_example :
    parse_review (PyValue.str exTextC1) =
      { summary := [("Good paper.").toList],
        strengths := [("clear writing").toList, ("solid experiments").toList],
        weaknesses := [("too long").toList],
        questions := [("Why not compare to X?").toList] } := by
  decide

/-- Claim C2: on every non-string input (such as `None` or the integer
42), `parse_review` returns exactly the record with summary
`["Not Available"]` and the three other sections empty.  In the
embedding `parse_review` is a total function, so no error is possible. -/
theorem parse_review_non_string (v : PyValue) (h : ∀ s, v ≠ PyValue.str s) :
    parse_review v =
      { summary := [notAvailable], strengths := [], weaknesses := [], questions := [] } := by
  cases v with
  | str s => exact absurd rfl (h s)
  | pyNone => rfl
  | pyInt n => rfl
  | other => rfl

/-- Witness for claim C2: the non-string inputs `None` and `42`. -/
theorem parse_review_non_string_witness :
    parse_review PyValue.pyNone =
      { summary := [notAvailable], strengths := [], weaknesses := [], questions := [] } ∧
    parse_review (PyValue.pyInt 42) =
      { summary := [notAvailable], strengths := [], weaknesses := [], questions := [] } :=
  ⟨parse_review_non_string PyValue.pyNone (fun _ h => PyValue.noConfusion h),
   parse_review_non_string (PyValue.pyInt 42) (fun _ h => PyValue.noConfusion h)⟩

/-- Claim C3: `parse_review` is total — it is a total Lean function, so
it terminates without error on every input — and always returns a
record with all four fields present as sequences; when every section
marker is missing, all four fields default to the empty sequence. -/
theorem parse_review_total_fields :
    (∀ v : PyValue, ∃ s st w q,
      parse_review v = { summary := s, strengths := st, weaknesses := w, questions := q }) ∧
    (∀ text : List Char,
      findSub summaryMarker text = none →
      findSub strengthsMarker text = none →
      findSub weaknessesMarker text = none →
      findSub questionsMarker text = none →
      parse_review (PyValue.str text) =
        { summary := [], strengths := [], weaknesses := [], questions := [] }) := by
  constructor
  · intro v
    exact ⟨_, _, _, _, rfl⟩
  · intro text h1 h2 h3 h4
    show parseReviewStr text = _
    simp [parseReviewStr, sectionRaw, afterFirst, h1, h2, h3, h4]

/-- Witness for claim C3: a marker-free input yields all-empty fields. -/
theorem parse_review_total_fields_witness :
    parse_review (PyValue.str (("hello").toList)) =
      { summary := [], strengths := [], weaknesses := [], questions := [] } :=
  parse_review_total_fields.2 (("hello").toList) (by decide) (by decide) (by decide) (by decide)

/-- Claim C6: when a section's marker does not occur, that section of
the parse is the empty sequence (the field is still present), and a
Summary section that is present with only-whitespace content also
yields an empty summary. -/
theorem parse_review_absent_sections (text : List Char) :
    (findSub summaryMarker text = none → (parseReviewStr text).summary = []) ∧
    (findSub strengthsMarker text = none → (parseReviewStr text).strengths = []) ∧
    (findSub weaknessesMarker text = none → (parseReviewStr text).weaknesses = []) ∧
    (findSub questionsMarker text = none → (parseReviewStr text).questions = []) ∧
    (∀ c, sectionRaw summaryMarker strengthsMarker text = some c → pyStrip c = [] →
      (parseReviewStr text).summary = []) := by
  refine ⟨?_, ?_, ?_, ?_, ?_⟩
  · intro h
    simp [parseReviewStr, sectionRaw, afterFirst, h]
  · intro h
    simp [parseReviewStr, sectionRaw, afterFirst, h]
  · intro h
    simp [parseReviewStr, sectionRaw, afterFirst, h]
  · intro h
    simp [parseReviewStr, afterFirst, h]
  · intro c hc hstrip
    simp [parseReviewStr, hc, hstrip]

/-- Witness for claim C6: an input with no markers at all, and an input
whose Summary body is pure whitespace. -/
theorem parse_review_absent_sections_witness :
    (parseReviewStr []).strengths = [] ∧
    (parseReviewStr (("**Summary**\n  ").toList)).summary = [] :=
  ⟨(parse_review_absent_sections []).2.1 (by decide),
   (parse_review_absent_sections (("**Summary**\n  ").toList)).2.2.2.2
     (("\n  ").toList) (by decide) (by decide)⟩

/-- Claim C8: `get_user_progress` answers 0, never an error, when the
results file does not exist, is empty, or is malformed (any read or
parse failure), and `countForUser` of a nonexistent store is 0. -/
theorem store_read_failure_zero (user : List Char) :
    get_user_progress ReadOutcome.noFile user = 0 ∧
    get_user_progress ReadOutcome.emptyData user = 0 ∧
    get_user_progress ReadOutcome.readError user = 0 ∧
    get_user_progress (ReadOutcome.ok []) user = 0 ∧
    countForUser Option.none user = 0 := by
  refine ⟨rfl, rfl, rfl, ?_, rfl⟩
  simp [get_user_progress]

/-- Claim C4: for every string input, each labeled section's raw content
is everything between the first occurrence of its literal marker and
the first following occurrence of the next marker in the fixed order
Summary, Strengths, Weaknesses, Questions — or the end of the text when
no later marker follows.  `markerAt`'s minimality clause is exactly the
shortest-span (non-greedy) condition, and the span is an arbitrary
sublist of characters, so it freely crosses newlines and blank lines. -/
theorem parse_review_section_spans (text : List Char) :
    SpanBetween summaryMarker strengthsMarker text ∧
    SpanBetween strengthsMarker weaknessesMarker text ∧
    SpanBetween weaknessesMarker questionsMarker text ∧
    (findSub questionsMarker text = none → afterFirst questionsMarker text = none) ∧
    (∀ i, markerAt questionsMarker text i →
      afterFirst questionsMarker text = some ((text.drop i).drop questionsMarker.length)) := by
  refine ⟨sectionRaw_between _ _ _, sectionRaw_between _ _ _, sectionRaw_between _ _ _, ?_, ?_⟩
  · intro h
    simp [afterFirst, h]
  · intro i hi
    simp [afterFirst, markerAt_findSub _ _ _ hi]

/-- Witness for claim C4: the Summary span of the worked example. -/
theorem parse_review_section_spans_witness :
    ∃ raw, sectionRaw summaryMarker strengthsMarker exTextC1 = some raw := by
  have h := (parse_review_section_spans exTextC1).1
  have hm : markerAt summaryMarker exTextC1 0 := by
    constructor
    · decide
    · intro j hj
      omega
  rcases h.2 0 hm with ⟨j, _, heq⟩ | ⟨_, heq⟩ <;> exact ⟨_, heq⟩

/-- Claim C5: for every string input whose Strengths, Weaknesses or
Questions marker is present, that section's points are obtained by
splitting the content on newline-followed-by-hyphen, cleaning each
candidate (strip, then strip one remaining leading hyphen and following
whitespace) and discarding empties in order; every surviving point is
non-empty and is the cleanup of one of the candidates, and a
whitespace-only section yields no points. -/
theorem parse_review_bullet_points (text : List Char) :
    (∀ c, sectionRaw strengthsMarker weaknessesMarker text = some c →
      (parseReviewStr text).strengths = cleanPoints (splitNewlineHyphen (pyStrip c)) ∧
      ((∀ ch ∈ c, isPyWhitespace ch = true) → (parseReviewStr text).strengths = [])) ∧
    (∀ c, sectionRaw weaknessesMarker questionsMarker text = some c →
      (parseReviewStr text).weaknesses = cleanPoints (splitNewlineHyphen (pyStrip c)) ∧
      ((∀ ch ∈ c, isPyWhitespace ch = true) → (parseReviewStr text).weaknesses = [])) ∧
    (∀ c, afterFirst questionsMarker text = some c →
      (parseReviewStr text).questions = cleanPoints (splitNewlineHyphen (pyStrip c)) ∧
      ((∀ ch ∈ c, isPyWhitespace ch = true) → (parseReviewStr text).questions = [])) ∧
    (∀ ps : List (List Char), ∀ p ∈ cleanPoints ps, p ≠ [] ∧ ∃ q ∈ ps, cleanPoint q = p) := by
  refine ⟨?_, ?_, ?_, ?_⟩
  · intro c hc
    have hf : (parseReviewStr text).strengths = parsePoints c := by
      simp [parseReviewStr, hc]
    refine ⟨hf, ?_⟩
    intro hall
    rw [hf, parsePoints_of_strip_nil c (pyStrip_eq_nil_of_all_ws c hall)]
  · intro c hc
    have hf : (parseReviewStr text).weaknesses = parsePoints c := by
      simp [parseReviewStr, hc]
    refine ⟨hf, ?_⟩
    intro hall
    rw [hf, parsePoints_of_strip_nil c (pyStrip_eq_nil_of_all_ws c hall)]
  · intro c hc
    have hf : (parseReviewStr text).questions = parsePoints c := by
      simp [parseReviewStr, hc]
    refine ⟨hf, ?_⟩
    intro hall
    rw [hf, parsePoints_of_strip_nil c (pyStrip_eq_nil_of_all_ws c hall)]
  · intro ps p hp
    exact ⟨cleanPoints_ne_nil ps p hp, cleanPoints_mem ps p hp⟩

/-- Witness for claim C5: the Strengths points of the worked example,
and the whitespace-only Strengths section yielding no points. -/
theorem parse_review_bullet_points_witness :
    (parseReviewStr exTextC1).strengths =
      cleanPoints (splitNewlineHyphen (pyStrip (("\n- clear writing\n- solid experiments\n").toList))) ∧
    (parseReviewStr exTextWs).strengths = [] := by
  have h1 := (parse_review_bullet_points exTextC1).1
    (("\n- clear writing\n- solid experiments\n").toList) (by decide)
  have h2 := (parse_review_bullet_points exTextWs).1 (("\n  \n").toList) (by decide)
  exact ⟨h1.1, h2.2 (by decide)⟩

/-- Claim C10: when the Strengths marker is absent the Summary span runs
to the end of the text, so later markers and their bodies appear
verbatim inside it, while later sections are still parsed independently
from their own markers; on the example the text of the Weaknesses
bullets occurs both inside the summary string and as a point of the
weaknesses section. -/
theorem parse_review_missing_middle_marker :
    (∀ text rest, findSub strengthsMarker text = none →
      afterFirst summaryMarker text = some rest →
      sectionRaw summaryMarker strengthsMarker text = some rest) ∧
    (parseReviewStr exTextC10).summary = [("Good.\n**Weaknesses**\n- too long").toList] ∧
    (parseReviewStr exTextC10).weaknesses = [("too long").toList] ∧
    ("**Weaknesses**").toList <:+: ("Good.\n**Weaknesses**\n- too long").toList ∧
    ("too long").toList <:+: ("Good.\n**Weaknesses**\n- too long").toList := by
  refine ⟨?_, by decide, by decide, by decide, by decide⟩
  intro text rest habs hrest
  have hsm : strengthsMarker ≠ ([] : List Char) := by decide
  cases e : findSub summaryMarker text with
  | none =>
    rw [afterFirst, e] at hrest
    exact Option.noConfusion hrest
  | some i =>
    rw [afterFirst, e] at hrest
    injection hrest with hr
    subst hr
    have hnone : findSub strengthsMarker (List.drop (i + summaryMarker.length) text) = none :=
      findSub_drop_none strengthsMarker text hsm habs (i + summaryMarker.length)
    rw [sectionRaw, afterFirst, e]
    simp [upToFirst, hnone]

/-- Witness for claim C10: the Summary span of the example with a
missing Strengths marker runs to the end of the text. -/
theorem parse_review_missing_middle_marker_witness :
    sectionRaw summaryMarker strengthsMarker exTextC10 =
      some (("\nGood.\n**Weaknesses**\n- too long").toList) :=
  parse_review_missing_middle_marker.1 exTextC10
    (("\nGood.\n**Weaknesses**\n- too long").toList) (by decide) (by decide)

end App
